import Mathlib

/-!
Shallow embedding of `src/pipeline/event_handler.rs` from the rapier
repository: the `ActiveEvents` bit mask, the `EventHandler` dispatch
capability (its no-op implementation for `()` and the channel-backed
`ChannelEventCollector`), together with a state model of the crossbeam
channels the collector sends into.
-/

namespace EventHandlerSpec

/-- Modelled from the spec: `crate::geometry::IntersectionEvent` (not under
`src/`): identifies the pair of colliders whose intersection state changed
and the new boolean intersecting state. Collider handles are abstracted as
naturals. -/
structure IntersectionEvent where
  collider1 : Nat
  collider2 : Nat
  intersecting : Bool
deriving DecidableEq, Repr

/-- Modelled from the spec: `crate::geometry::ContactEvent` (not under
`src/`): a tagged value with variants `Started` and `Stopped`, each carrying
the identifying pair of colliders. -/
inductive ContactEvent where
  | Started (collider1 collider2 : Nat)
  | Stopped (collider1 collider2 : Nat)
deriving DecidableEq, Repr

/-- Modelled from the spec: `crate::geometry::ContactPair` (not under
`src/`): the transient contact-manifold detail object, borrowed only for
the duration of a dispatch call. Its contents are irrelevant to this core,
so they are abstracted as an opaque payload. -/
structure ContactPair where
  payload : Nat
deriving DecidableEq, Repr

/-- `ActiveEvents` from `bitflags!`: a bit set over `u32`. -/
structure ActiveEvents where
  bits : Nat
deriving DecidableEq, Repr

namespace ActiveEvents

/-- `const INTERSECTION_EVENTS = 0b0001`. -/
def INTERSECTION_EVENTS : ActiveEvents := ⟨0b0001⟩

/-- `const CONTACT_EVENTS = 0b0010`. -/
def CONTACT_EVENTS : ActiveEvents := ⟨0b0010⟩

/-- `ActiveEvents::empty()` from `bitflags!`: all bits clear. -/
def empty : ActiveEvents := ⟨0⟩

/-- `impl Default for ActiveEvents { fn default() -> Self { ActiveEvents::empty() } }`. -/
def default : ActiveEvents := ActiveEvents.empty

/-- Bitwise OR of two masks, as generated by `bitflags!` for `|`. -/
def or (a b : ActiveEvents) : ActiveEvents := ⟨a.bits ||| b.bits⟩

/-- Bitwise AND of two masks, as generated by `bitflags!` for `&`. -/
def and (a b : ActiveEvents) : ActiveEvents := ⟨a.bits &&& b.bits⟩

/-- `bitflags!`-generated membership test:
`self.bits & other.bits == other.bits`. -/
def contains (a b : ActiveEvents) : Bool := a.bits &&& b.bits == b.bits

end ActiveEvents

/-- State of one crossbeam channel, viewed from the producer side: the
sequence of pending (sent, not yet received) items, and whether every
consumer handle has been dropped (the channel is closed/disconnected). -/
structure Channel (α : Type) where
  queue : List α
  closed : Bool
deriving DecidableEq, Repr

/-- `crossbeam::channel::Sender::send` on an unbounded channel: if every
receiver has been dropped the send fails (returning `Err(SendError)`) and
the message is discarded; otherwise the message is appended to the
channel's pending queue. The returned `Bool` is the success of the
`Result`. -/
def Channel.send {α : Type} (c : Channel α) (a : α) : Channel α × Bool :=
  if c.closed then (c, false) else ({ c with queue := c.queue ++ [a] }, true)

/-- A fresh channel, as produced by `crossbeam::channel::unbounded()`:
empty pending queue, consumer side alive. -/
def Channel.fresh {α : Type} : Channel α := ⟨[], false⟩

/-- `impl EventHandler for ()`: `fn handle_intersection_event(&self, _event) {}` —
the body is empty, so the (unit) receiver state is returned unchanged. -/
def unitHandleIntersectionEvent (h : Unit) (_event : IntersectionEvent) : Unit := h

/-- `impl EventHandler for ()`: `fn handle_contact_event(&self, _event, _contact_pair) {}` —
the body is empty, so the (unit) receiver state is returned unchanged. -/
def unitHandleContactEvent (h : Unit) (_event : ContactEvent) (_contact_pair : ContactPair) : Unit := h

/-- `ChannelEventCollector`: owns the two producer handles. Its observable
state is the state of the two channels those handles send into. -/
structure ChannelEventCollector where
  intersection_event_sender : Channel IntersectionEvent
  contact_event_sender : Channel ContactEvent
deriving DecidableEq, Repr

namespace ChannelEventCollector

/-- `ChannelEventCollector::new`: stores the two given senders and does
nothing else. -/
def new (intersection_event_sender : Channel IntersectionEvent)
    (contact_event_sender : Channel ContactEvent) : ChannelEventCollector :=
  { intersection_event_sender, contact_event_sender }

/-- `fn handle_intersection_event(&self, event) { let _ = self.intersection_event_sender.send(event); }` —
the send's `Result` is discarded. -/
def handle_intersection_event (s : ChannelEventCollector)
    (event : IntersectionEvent) : ChannelEventCollector :=
  { s with intersection_event_sender := (s.intersection_event_sender.send event).1 }

/-- `fn handle_contact_event(&self, event, _: &ContactPair) { let _ = self.contact_event_sender.send(event); }` —
the borrowed `ContactPair` is ignored and the send's `Result` is discarded. -/
def handle_contact_event (s : ChannelEventCollector)
    (event : ContactEvent) (_contact_pair : ContactPair) : ChannelEventCollector :=
  { s with contact_event_sender := (s.contact_event_sender.send event).1 }

end ChannelEventCollector

/-- One dispatch-capability invocation on a `ChannelEventCollector`. -/
inductive Call where
  | intersection (event : IntersectionEvent)
  | contact (event : ContactEvent) (contact_pair : ContactPair)
deriving DecidableEq, Repr

/-- Apply one call to the collector. -/
def applyCall (s : ChannelEventCollector) : Call → ChannelEventCollector
  | .intersection e => s.handle_intersection_event e
  | .contact e p => s.handle_contact_event e p

/-- Run a sequence of calls (one interleaved history of handler
invocations) against the collector. -/
def runCalls (s : ChannelEventCollector) : List Call → ChannelEventCollector
  | [] => s
  | c :: cs => runCalls (applyCall s c) cs

/-- The intersection events of a call history, in order. -/
def intersectionEventsOf (calls : List Call) : List IntersectionEvent :=
  calls.filterMap fun c => match c with
    | .intersection e => some e
    | .contact _ _ => none

/-- The contact events of a call history, in order. -/
def contactEventsOf (calls : List Call) : List ContactEvent :=
  calls.filterMap fun c => match c with
    | .intersection _ => none
    | .contact e _ => some e

/-- Run the no-op (`()`) handler over a sequence of calls. -/
def runUnitCalls (h : Unit) : List Call → Unit
  | [] => h
  | .intersection e :: cs => runUnitCalls (unitHandleIntersectionEvent h e) cs
  | .contact e p :: cs => runUnitCalls (unitHandleContactEvent h e p) cs

/-- Send a whole list of intersection events, one call at a time. -/
def collectIntersections (events : List IntersectionEvent) : ChannelEventCollector :=
  events.foldl ChannelEventCollector.handle_intersection_event
    (ChannelEventCollector.new Channel.fresh Channel.fresh)

/-- `IsInterleaving ls m`: the single list `m` is one possible interleaved
order of the per-thread call sequences `ls` — each step takes the next
pending element of some thread, so each thread's own order is preserved. -/
inductive IsInterleaving {α : Type} : List (List α) → List α → Prop
  | nil (ls : List (List α)) : (∀ l ∈ ls, l = []) → IsInterleaving ls []
  | cons (pre : List (List α)) (a : α) (rest : List α) (post : List (List α))
      (m : List α) : IsInterleaving (pre ++ rest :: post) m →
      IsInterleaving (pre ++ (a :: rest) :: post) (a :: m)

/- ### Helper lemmas -/

theorem Channel.send_fst_closed {α : Type} (c : Channel α) (a : α) :
    ((c.send a).1).closed = c.closed := by
  unfold Channel.send; split <;> rfl

theorem Channel.send_fst_queue {α : Type} (c : Channel α) (a : α) :
    ((c.send a).1).queue = if c.closed then c.queue else c.queue ++ [a] := by
  unfold Channel.send; split <;> simp_all

theorem intersectionEventsOf_cons_intersection (e : IntersectionEvent) (cs : List Call) :
    intersectionEventsOf (.intersection e :: cs) = e :: intersectionEventsOf cs := by
  simp [intersectionEventsOf, List.filterMap_cons]

theorem intersectionEventsOf_cons_contact (e : ContactEvent) (p : ContactPair) (cs : List Call) :
    intersectionEventsOf (.contact e p :: cs) = intersectionEventsOf cs := by
  simp [intersectionEventsOf, List.filterMap_cons]

theorem contactEventsOf_cons_intersection (e : IntersectionEvent) (cs : List Call) :
    contactEventsOf (.intersection e :: cs) = contactEventsOf cs := by
  simp [contactEventsOf, List.filterMap_cons]

theorem contactEventsOf_cons_contact (e : ContactEvent) (p : ContactPair) (cs : List Call) :
    contactEventsOf (.contact e p :: cs) = e :: contactEventsOf cs := by
  simp [contactEventsOf, List.filterMap_cons]

/-- Full characterisation of a run: closedness of both channels is
untouched, and each queue grows exactly by its own category's events (by
nothing if its consumer side is gone). -/
theorem runCalls_spec (calls : List Call) : ∀ s : ChannelEventCollector,
    (runCalls s calls).intersection_event_sender.closed
        = s.intersection_event_sender.closed ∧
    (runCalls s calls).contact_event_sender.closed
        = s.contact_event_sender.closed ∧
    (runCalls s calls).intersection_event_sender.queue
        = s.intersection_event_sender.queue ++
            (if s.intersection_event_sender.closed then []
             else intersectionEventsOf calls) ∧
    (runCalls s calls).contact_event_sender.queue
        = s.contact_event_sender.queue ++
            (if s.contact_event_sender.closed then []
             else contactEventsOf calls) := by
  induction calls with
  | nil =>
    intro s
    simp [runCalls, intersectionEventsOf, contactEventsOf]
  | cons c cs ih =>
    intro s
    obtain ⟨h1, h2, h3, h4⟩ := ih (applyCall s c)
    cases c with
    | intersection e =>
      refine ⟨?_, ?_, ?_, ?_⟩
      · rw [show runCalls s (Call.intersection e :: cs)
              = runCalls (applyCall s (Call.intersection e)) cs from rfl, h1]
        simp [applyCall, ChannelEventCollector.handle_intersection_event,
          Channel.send_fst_closed]
      · rw [show runCalls s (Call.intersection e :: cs)
              = runCalls (applyCall s (Call.intersection e)) cs from rfl, h2]
        rfl
      · rw [show runCalls s (Call.intersection e :: cs)
              = runCalls (applyCall s (Call.intersection e)) cs from rfl, h3,
          intersectionEventsOf_cons_intersection]
        simp only [applyCall, ChannelEventCollector.handle_intersection_event,
          Channel.send_fst_closed, Channel.send_fst_queue]
        by_cases hc : s.intersection_event_sender.closed <;> simp [hc]
      · rw [show runCalls s (Call.intersection e :: cs)
              = runCalls (applyCall s (Call.intersection e)) cs from rfl, h4,
          contactEventsOf_cons_intersection]
        rfl
    | contact e p =>
      refine ⟨?_, ?_, ?_, ?_⟩
      · rw [show runCalls s (Call.contact e p :: cs)
              = runCalls (applyCall s (Call.contact e p)) cs from rfl, h1]
        rfl
      · rw [show runCalls s (Call.contact e p :: cs)
              = runCalls (applyCall s (Call.contact e p)) cs from rfl, h2]
        simp [applyCall, ChannelEventCollector.handle_contact_event,
          Channel.send_fst_closed]
      · rw [show runCalls s (Call.contact e p :: cs)
              = runCalls (applyCall s (Call.contact e p)) cs from rfl, h3,
          intersectionEventsOf_cons_contact]
        rfl
      · rw [show runCalls s (Call.contact e p :: cs)
              = runCalls (applyCall s (Call.contact e p)) cs from rfl, h4,
          contactEventsOf_cons_contact]
        simp only [applyCall, ChannelEventCollector.handle_contact_event,
          Channel.send_fst_closed, Channel.send_fst_queue]
        by_cases hc : s.contact_event_sender.closed <;> simp [hc]

/-- Folding intersection sends over an open channel appends exactly the
sent events, in order, and leaves the contact channel untouched. -/
theorem foldl_handle_intersection (events : List IntersectionEvent) :
    ∀ s : ChannelEventCollector, s.intersection_event_sender.closed = false →
    (events.foldl ChannelEventCollector.handle_intersection_event s).intersection_event_sender.queue
        = s.intersection_event_sender.queue ++ events ∧
    (events.foldl ChannelEventCollector.handle_intersection_event s).intersection_event_sender.closed
        = false ∧
    (events.foldl ChannelEventCollector.handle_intersection_event s).contact_event_sender
        = s.contact_event_sender := by
  induction events with
  | nil => intro s hs; simp [hs]
  | cons e es ih =>
    intro s hs
    have hstep : (s.handle_intersection_event e).intersection_event_sender.closed = false := by
      simp [ChannelEventCollector.handle_intersection_event, Channel.send_fst_closed, hs]
    obtain ⟨h1, h2, h3⟩ := ih (s.handle_intersection_event e) hstep
    refine ⟨?_, ?_, ?_⟩
    · rw [List.foldl_cons, h1]
      simp [ChannelEventCollector.handle_intersection_event, Channel.send_fst_queue, hs]
    · rw [List.foldl_cons, h2]
    · rw [List.foldl_cons, h3]
      rfl

/-- An interleaving is a permutation of the concatenation of the
per-thread sequences: no element is lost, duplicated or invented. -/
theorem IsInterleaving.perm_flatten {α : Type} {ls : List (List α)} {m : List α}
    (h : IsInterleaving ls m) : List.Perm m ls.flatten := by
  induction h with
  | nil ls h =>
    rw [show ls.flatten = [] from List.flatten_eq_nil_iff.mpr h]
  | cons pre a rest post m _ ih =>
    have h1 : List.Perm (a :: m) (a :: (pre.flatten ++ (rest ++ post.flatten))) := by
      simpa using ih.cons a
    have h2 : List.Perm (a :: (pre.flatten ++ (rest ++ post.flatten)))
        (pre.flatten ++ a :: (rest ++ post.flatten)) := List.perm_middle.symm
    simpa using h1.trans h2

/-- In an interleaving, each thread's own sequence survives as a
subsequence: per-thread FIFO order is preserved. -/
theorem IsInterleaving.sublist_of_mem {α : Type} {ls : List (List α)} {m : List α}
    (h : IsInterleaving ls m) : ∀ l ∈ ls, List.Sublist l m := by
  induction h with
  | nil ls h =>
    intro l hl
    rw [h l hl]
  | cons pre a rest post m _ ih =>
    intro l hl
    rcases List.mem_append.mp hl with hpre | hx
    · exact (ih l (List.mem_append.mpr (Or.inl hpre))).cons a
    · rcases List.mem_cons.mp hx with rfl | hpost
      · exact (ih rest (by simp)).cons₂ a
      · exact (ih l (by simp [hpost])).cons a

/-- Projecting every thread's sequence and the interleaved order through
the same `filterMap` again yields an interleaving: each category's
subsequence of a mixed-call history is an interleaving of the threads'
subsequences of that category. -/
theorem IsInterleaving.filterMap {α β : Type} (f : α → Option β)
    {ls : List (List α)} {m : List α} (h : IsInterleaving ls m) :
    IsInterleaving (ls.map (List.filterMap f)) (m.filterMap f) := by
  induction h with
  | nil ls h =>
    refine .nil _ ?_
    intro l hl
    obtain ⟨x, hx, rfl⟩ := List.mem_map.mp hl
    rw [h x hx]
    rfl
  | cons pre a rest post m _ ih =>
    cases hfa : f a with
    | none =>
      simpa [List.filterMap_cons, hfa] using ih
    | some b =>
      have step := IsInterleaving.cons (pre.map (List.filterMap f)) b
        (List.filterMap f rest) (post.map (List.filterMap f)) (m.filterMap f)
        (by simpa using ih)
      simpa [List.filterMap_cons, hfa] using step

/- ### Concrete sample values used by the witnesses -/

/-- Sample event: colliders 1 and 2 started intersecting. -/
def sampleIntersectionA : IntersectionEvent := ⟨1, 2, true⟩

/-- Sample event: colliders 3 and 4 started intersecting. -/
def sampleIntersectionB : IntersectionEvent := ⟨3, 4, true⟩

/-- Sample contact event. -/
def sampleContact : ContactEvent := .Started 1 2

/-- Sample transient contact-pair detail. -/
def samplePair : ContactPair := ⟨0⟩

/-- A collector over two fresh (open, empty) channels. -/
def freshCollector : ChannelEventCollector :=
  ChannelEventCollector.new Channel.fresh Channel.fresh

/-- A collector over two channels whose consumer sides have been dropped. -/
def closedCollector : ChannelEventCollector :=
  ChannelEventCollector.new ⟨[], true⟩ ⟨[], true⟩

/- ### Claims -/

/-- C1: a successful `handle_intersection_event` enqueues exactly one item
on the intersection queue and leaves the contact queue (indeed the whole
contact channel) unchanged; a successful `handle_contact_event` enqueues
exactly one item on the contact queue and leaves the intersection channel
unchanged; and over any interleaving of calls, the intersection queue
receives exactly the intersection events and the contact queue exactly the
contact events — events never cross streams. -/
theorem channel_collector_routing (s : ChannelEventCollector) (e : IntersectionEvent)
    (ce : ContactEvent) (p : ContactPair) (calls : List Call) :
    (s.intersection_event_sender.closed = false →
      (s.handle_intersection_event e).intersection_event_sender.queue
        = s.intersection_event_sender.queue ++ [e]) ∧
    (s.handle_intersection_event e).contact_event_sender = s.contact_event_sender ∧
    (s.contact_event_sender.closed = false →
      (s.handle_contact_event ce p).contact_event_sender.queue
        = s.contact_event_sender.queue ++ [ce]) ∧
    (s.handle_contact_event ce p).intersection_event_sender = s.intersection_event_sender ∧
    (runCalls s calls).intersection_event_sender.queue
      = s.intersection_event_sender.queue ++
          (if s.intersection_event_sender.closed then []
           else intersectionEventsOf calls) ∧
    (runCalls s calls).contact_event_sender.queue
      = s.contact_event_sender.queue ++
          (if s.contact_event_sender.closed then []
           else contactEventsOf calls) := by
  obtain ⟨_, _, h3, h4⟩ := runCalls_spec calls s
  refine ⟨?_, rfl, ?_, rfl, h3, h4⟩
  · intro hc
    simp [ChannelEventCollector.handle_intersection_event, Channel.send_fst_queue, hc]
  · intro hc
    simp [ChannelEventCollector.handle_contact_event, Channel.send_fst_queue, hc]

/-- Witness for C1: on a fresh collector each handler call lands its one
event on its own queue. -/
theorem channel_collector_routing_witness :
    (freshCollector.handle_intersection_event sampleIntersectionA).intersection_event_sender.queue
        = [sampleIntersectionA] ∧
    (freshCollector.handle_contact_event sampleContact samplePair).contact_event_sender.queue
        = [sampleContact] := by
  have h := channel_collector_routing freshCollector sampleIntersectionA sampleContact
    samplePair []
  exact ⟨h.1 rfl, h.2.2.1 rfl⟩

/-- C2: sending any sequence of intersection events from one thread through
a collector built over fresh channels and then draining the intersection
consumer yields exactly those events, in send order — no loss, no
duplication, no transformation. -/
theorem fresh_collector_fifo (events : List IntersectionEvent) :
    (collectIntersections events).intersection_event_sender.queue = events := by
  have h := foldl_handle_intersection events
    (ChannelEventCollector.new Channel.fresh Channel.fresh) rfl
  simpa [collectIntersections] using h.1

/-- C3: when a channel's consumer side is gone, the corresponding handler
call still returns normally and has no observable effect at all — in
particular the other category's channel is untouched. -/
theorem closed_channel_send_silent (s : ChannelEventCollector) (e : IntersectionEvent)
    (ce : ContactEvent) (p : ContactPair) :
    (s.intersection_event_sender.closed = true → s.handle_intersection_event e = s) ∧
    (s.contact_event_sender.closed = true → s.handle_contact_event ce p = s) := by
  cases s with
  | mk i c =>
    constructor
    · intro hc
      have hc' : i.closed = true := hc
      simp [ChannelEventCollector.handle_intersection_event, Channel.send, hc']
    · intro hc
      have hc' : c.closed = true := hc
      simp [ChannelEventCollector.handle_contact_event, Channel.send, hc']

/-- Witness for C3: sends on a fully disconnected collector are no-ops. -/
theorem closed_channel_send_silent_witness :
    closedCollector.handle_intersection_event sampleIntersectionA = closedCollector ∧
    closedCollector.handle_contact_event sampleContact samplePair = closedCollector := by
  have h := closed_channel_send_silent closedCollector sampleIntersectionA sampleContact
    samplePair
  exact ⟨h.1 rfl, h.2 rfl⟩

/-- C4: `handle_contact_event` forwards only the owned `ContactEvent`; the
resulting channel state is independent of the borrowed `ContactPair`
argument. -/
theorem contact_event_ignores_contact_pair (s : ChannelEventCollector)
    (e : ContactEvent) (p₁ p₂ : ContactPair) :
    s.handle_contact_event e p₁ = s.handle_contact_event e p₂ := rfl

/-- C6: the no-op handler (the `EventHandler` implementation for `()`) has
zero observable effect: each call returns its receiver unchanged, and so
does any sequence of calls. -/
theorem unit_handler_noop (h : Unit) (calls : List Call) (e : IntersectionEvent)
    (ce : ContactEvent) (p : ContactPair) :
    unitHandleIntersectionEvent h e = h ∧
    unitHandleContactEvent h ce p = h ∧
    runUnitCalls h calls = h := by
  refine ⟨rfl, rfl, ?_⟩
  induction calls with
  | nil => rfl
  | cons c cs ih => cases c <;> exact ih

/-- C7: the default-constructed event mask is the empty mask: neither the
`INTERSECTION_EVENTS` bit nor the `CONTACT_EVENTS` bit is set. -/
theorem default_mask_empty :
    ActiveEvents.default = ActiveEvents.empty ∧
    ActiveEvents.default.contains ActiveEvents.INTERSECTION_EVENTS = false ∧
    ActiveEvents.default.contains ActiveEvents.CONTACT_EVENTS = false := by
  decide

/-- C8: OR-ing the two single-bit masks yields exactly the two bits
(`bits = 0b0011`, no others), and `empty OR INTERSECTION_EVENTS` contains
`INTERSECTION_EVENTS` but not `CONTACT_EVENTS`. -/
theorem mask_or_single_bits :
    (ActiveEvents.INTERSECTION_EVENTS.or ActiveEvents.CONTACT_EVENTS).bits = 0b0011 ∧
    (ActiveEvents.INTERSECTION_EVENTS.or ActiveEvents.CONTACT_EVENTS).contains
        ActiveEvents.INTERSECTION_EVENTS = true ∧
    (ActiveEvents.INTERSECTION_EVENTS.or ActiveEvents.CONTACT_EVENTS).contains
        ActiveEvents.CONTACT_EVENTS = true ∧
    (ActiveEvents.empty.or ActiveEvents.INTERSECTION_EVENTS).contains
        ActiveEvents.INTERSECTION_EVENTS = true ∧
    (ActiveEvents.empty.or ActiveEvents.INTERSECTION_EVENTS).contains
        ActiveEvents.CONTACT_EVENTS = false := by
  decide

/-- C9: for any per-thread sequences of handler calls (each thread freely
mixing `handle_intersection_event` and `handle_contact_event`) and any
interleaved order in which the concurrent calls are serialised, each
category's drained queue is a permutation of all the events sent into that
category — every sent event is observed exactly once on its own stream (its
count in the queue equals the total count sent by all threads), and each
thread's own send order survives as a subsequence of its category's queue
(per-thread FIFO), while order across threads is whatever the interleaving
was. -/
theorem concurrent_sends_exactly_once (threads : List (List Call))
    (order : List Call) (h : IsInterleaving threads order) :
    List.Perm (runCalls freshCollector order).intersection_event_sender.queue
        (threads.map intersectionEventsOf).flatten ∧
    List.Perm (runCalls freshCollector order).contact_event_sender.queue
        (threads.map contactEventsOf).flatten ∧
    (∀ e : IntersectionEvent,
      (runCalls freshCollector order).intersection_event_sender.queue.count e
        = (threads.map fun t => (intersectionEventsOf t).count e).sum) ∧
    (∀ e : ContactEvent,
      (runCalls freshCollector order).contact_event_sender.queue.count e
        = (threads.map fun t => (contactEventsOf t).count e).sum) ∧
    (∀ t ∈ threads,
      List.Sublist (intersectionEventsOf t)
        (runCalls freshCollector order).intersection_event_sender.queue ∧
      List.Sublist (contactEventsOf t)
        (runCalls freshCollector order).contact_event_sender.queue) := by
  obtain ⟨_, _, hq3, hq4⟩ := runCalls_spec order freshCollector
  have hqi : (runCalls freshCollector order).intersection_event_sender.queue
      = intersectionEventsOf order := by
    simpa [freshCollector, ChannelEventCollector.new, Channel.fresh] using hq3
  have hqc : (runCalls freshCollector order).contact_event_sender.queue
      = contactEventsOf order := by
    simpa [freshCollector, ChannelEventCollector.new, Channel.fresh] using hq4
  have hi' := h.filterMap (fun c => match c with
    | Call.intersection e => some e
    | Call.contact _ _ => none)
  have hi : IsInterleaving (threads.map intersectionEventsOf)
      (intersectionEventsOf order) := hi'
  have hc' := h.filterMap (fun c => match c with
    | Call.intersection _ => none
    | Call.contact e _ => some e)
  have hc : IsInterleaving (threads.map contactEventsOf)
      (contactEventsOf order) := hc'
  rw [hqi, hqc]
  refine ⟨hi.perm_flatten, hc.perm_flatten, ?_, ?_, ?_⟩
  · intro e
    have hcount := (hi.perm_flatten.count_eq e).trans
      (List.count_flatten e (threads.map intersectionEventsOf))
    simpa [List.map_map, Function.comp] using hcount
  · intro e
    have hcount := (hc.perm_flatten.count_eq e).trans
      (List.count_flatten e (threads.map contactEventsOf))
    simpa [List.map_map, Function.comp] using hcount
  · intro t ht
    exact ⟨hi.sublist_of_mem _ (List.mem_map_of_mem intersectionEventsOf ht),
      hc.sublist_of_mem _ (List.mem_map_of_mem contactEventsOf ht)⟩

/-- Witness for C9: two threads, one sending an intersection event and the
other a contact event; under the interleaving that serialises the contact
call first, each event is still observed exactly once on its own stream. -/
theorem concurrent_sends_exactly_once_witness :
    (runCalls freshCollector [Call.contact sampleContact samplePair,
        Call.intersection sampleIntersectionA]).intersection_event_sender.queue.count
        sampleIntersectionA = 1 ∧
    (runCalls freshCollector [Call.contact sampleContact samplePair,
        Call.intersection sampleIntersectionA]).contact_event_sender.queue.count
        sampleContact = 1 := by
  have hnil : IsInterleaving [[], []] ([] : List Call) :=
    .nil _ (by simp)
  have h1 : IsInterleaving [[Call.intersection sampleIntersectionA], []]
      [Call.intersection sampleIntersectionA] :=
    IsInterleaving.cons [] (Call.intersection sampleIntersectionA) [] [[]] [] hnil
  have h2 : IsInterleaving
      [[Call.intersection sampleIntersectionA], [Call.contact sampleContact samplePair]]
      [Call.contact sampleContact samplePair, Call.intersection sampleIntersectionA] :=
    IsInterleaving.cons [[Call.intersection sampleIntersectionA]]
      (Call.contact sampleContact samplePair) [] []
      [Call.intersection sampleIntersectionA] h1
  have h := concurrent_sends_exactly_once
    [[Call.intersection sampleIntersectionA], [Call.contact sampleContact samplePair]]
    [Call.contact sampleContact samplePair, Call.intersection sampleIntersectionA] h2
  exact ⟨(h.2.2.1 sampleIntersectionA).trans (by decide),
    (h.2.2.2.1 sampleContact).trans (by decide)⟩

/-- C10: the collector is a pure producer — `new` stores the two given
senders untouched and enqueues nothing, and no sequence of handler calls
ever removes an item: each initial queue stays a prefix of the final queue
and the pending counts never decrease. -/
theorem collector_pure_producer (i : Channel IntersectionEvent)
    (c : Channel ContactEvent) (s : ChannelEventCollector) (calls : List Call) :
    (ChannelEventCollector.new i c).intersection_event_sender = i ∧
    (ChannelEventCollector.new i c).contact_event_sender = c ∧
    List.IsPrefix s.intersection_event_sender.queue
        (runCalls s calls).intersection_event_sender.queue ∧
    List.IsPrefix s.contact_event_sender.queue
        (runCalls s calls).contact_event_sender.queue ∧
    s.intersection_event_sender.queue.length
        ≤ (runCalls s calls).intersection_event_sender.queue.length ∧
    s.contact_event_sender.queue.length
        ≤ (runCalls s calls).contact_event_sender.queue.length := by
  obtain ⟨_, _, h3, h4⟩ := runCalls_spec calls s
  refine ⟨rfl, rfl, ⟨_, h3.symm⟩, ⟨_, h4.symm⟩, ?_, ?_⟩
  · rw [h3]; simp
  · rw [h4]; simp

end EventHandlerSpec
